import Mathlib

/-!
Verification of `src/eval_prm/run_eval_with_vllm.py`.

Shallow embedding of the evaluation script's data model and logic:

* `computeMetricsFn` embeds the Python function `compute_metrics_fn`
  (lines 19-54 of the source). Python dicts are embedded as
  insertion-ordered association lists, matching CPython's (3.7+)
  guaranteed dict iteration order; float accuracies are embedded as
  exact rationals (the source divides two Python ints; `np.mean` of a
  list is its sum divided by its length).
* `AGG_FN_MAP` is imported by the script from `src.eval_utils.vote`,
  a module that is not part of this repository snapshot; its two
  members are modelled from the spec (see their doc comments).
* `runLoop` embeds the generation loop (lines 112-139), with the
  external collaborators (model generation, answer extraction,
  ground-truth parsing) as explicit functional parameters, exceptions
  as `Except`, and the checkpoint file as part of the loop state.
* `gradeAll` embeds the grading loop (lines 148-153).
-/

set_option linter.unusedVariables false

/-- One per-generation record inside an `EvalResult`
(`{"pred": ..., "correct": ...}`, optionally `"step_rewards"`). -/
structure GenRecord where
  pred : String
  step_rewards : Option (List Rat)
  correct : Bool
deriving DecidableEq, Repr

/-- One element of the `eval_results` list fed to `compute_metrics_fn`:
a dataset name and the sample's ordered list of generation records. -/
structure EvalResult where
  dataset : String
  generation : List GenRecord
deriving DecidableEq, Repr

/-- The projected record `compute_metrics_fn` builds for each generation:
`{"dataset": ..., "ans": ..., "scores": ..., "correct": ...}` (lines 22-28). -/
structure EvalSample where
  dataset : String
  ans : String
  scores : Option (List Rat)
  correct : Bool
deriving DecidableEq, Repr

/-- The decision record an aggregation function returns for one sample:
`{dataset, predicted answer or none, correct: bool}` (spec §4.1). -/
structure Decision where
  dataset : String
  ans : Option String
  correct : Bool
deriving DecidableEq, Repr

/-- The aggregation methods the script uses (`agg_fn_list = ["pass", "majority_vote"]`). -/
inductive AggMethod where
  | pass
  | majority_vote
deriving DecidableEq, Repr

/-- Modelled from the spec: the `pass` member of `AGG_FN_MAP`
(from `src.eval_utils.vote`, a module absent from this snapshot):
"correct if the first of the k records is marked correct (degenerates to
pass@1 when k=1)". The decision record carries the sample's dataset and
the first record's answer. -/
def passAgg : List EvalSample → Decision
  | [] => ⟨"", none, false⟩
  | r :: _ => ⟨r.dataset, some r.ans, r.correct⟩

/-- Number of records in `l` whose answer equals `a`. -/
def ansCount (l : List EvalSample) (a : String) : Nat :=
  (l.filter (fun r => r.ans = a)).length

/-- Append `a` to `ks` unless already present (first-seen-order key list). -/
def insertKey (ks : List String) (a : String) : List String :=
  if a ∈ ks then ks else ks ++ [a]

/-- The distinct answers of `l` in first-seen order. -/
def firstSeenAns (l : List EvalSample) : List String :=
  l.foldl (fun ks r => insertKey ks r.ans) []

/-- The modal answer: maximal `ansCount`, ties broken in favour of the
earliest-occurring group (a later group replaces the current best only
on a strictly greater count). -/
def modalAns (l : List EvalSample) : Option String :=
  (firstSeenAns l).foldl
    (fun best a =>
      match best with
      | none => some a
      | some b => if ansCount l a > ansCount l b then some a else some b)
    none

/-- Modelled from the spec: the `majority_vote` member of `AGG_FN_MAP`
(from `src.eval_utils.vote`, a module absent from this snapshot):
"group the k predictions by extracted-answer equality, pick the modal
group, correct if that group's representative was marked correct; ties
broken by earliest-occurring group". The representative of a group is
its earliest record. -/
def majorityVote (l : List EvalSample) : Decision :=
  match l with
  | [] => ⟨"", none, false⟩
  | r0 :: _ =>
    match modalAns l with
    | none => ⟨r0.dataset, none, false⟩
    | some a =>
      match l.find? (fun r => r.ans = a) with
      | none => ⟨r0.dataset, none, false⟩
      | some rep => ⟨r0.dataset, some a, rep.correct⟩

/-- The aggregation registry (`AGG_FN_MAP` from `src.eval_utils.vote`),
restricted to the two methods the script invokes. -/
def AGG_FN_MAP : AggMethod → (List EvalSample → Decision)
  | .pass => passAgg
  | .majority_vote => majorityVote

/-- Lines 22-29: the projected list `eval_samples` for one sample —
its first `k` generation records, each paired with the sample's dataset. -/
def evalSamplesOf (sample : EvalResult) (k : Nat) : List EvalSample :=
  (sample.generation.take k).map
    (fun generation =>
      ⟨sample.dataset, generation.pred, generation.step_rewards, generation.correct⟩)

/-- Lines 20-32: the list `final_results` — one decision record per sample. -/
def finalResultsOf (eval_results : List EvalResult) (k : Nat)
    (agg_method : AggMethod) : List Decision :=
  eval_results.map (fun sample => AGG_FN_MAP agg_method (evalSamplesOf sample k))

/-- Python `m[d] += 1` on an insertion-ordered dict embedded as an association
list: an existing key keeps its position, a new key is appended with
count 1 (CPython dict semantics; `defaultdict(int)` inserts 0 first). -/
def bump : List (String × Nat) → String → List (String × Nat)
  | [], d => [(d, 1)]
  | (a, n) :: rest, d =>
      if a = d then (a, n + 1) :: rest else (a, n) :: bump rest d

/-- Python `m[d]` with default 0 (`defaultdict(int)` read). -/
def lookup0 (m : List (String × Nat)) (d : String) : Nat :=
  ((m.find? (fun p => p.1 = d)).map (fun p => p.2)).getD 0

/-- Lines 34-39: `dataset_counts` — how many decision records each
dataset contributed, keyed in first-seen order. -/
def datasetCounts (final_results : List Decision) : List (String × Nat) :=
  final_results.foldl (fun m r => bump m r.dataset) []

/-- Lines 35-40: `dataset_correct` — how many correct decision records
each dataset contributed. -/
def datasetCorrect (final_results : List Decision) : List (String × Nat) :=
  final_results.foldl (fun m r => if r.correct then bump m r.dataset else m) []

/-- One row of the metrics list: either a per-dataset row
`{"dataset", "total", "correct", "accuracy"}` or the final synthetic
`{"Average": ...}` entry. -/
inductive Metric where
  | row (dataset : String) (total : Nat) (correct : Nat) (accuracy : Rat)
  | average (value : Rat)
deriving DecidableEq, Repr

/-- The `"accuracy"` (resp. `"Average"`) value of a metric row. -/
def Metric.accuracy : Metric → Rat
  | .row _ _ _ a => a
  | .average v => v

/-- The `"dataset"` key of a per-dataset row (`none` for the average row). -/
def Metric.datasetName : Metric → Option String
  | .row d _ _ _ => some d
  | .average _ => none

/-- Lines 42-50: the per-dataset metric rows, one per key of
`dataset_counts`, with `accuracy = correct / count` (exact division of
two ints, embedded in `ℚ`). -/
def datasetRows (final_results : List Decision) : List Metric :=
  (datasetCounts final_results).map
    (fun p =>
      Metric.row p.1 p.2 (lookup0 (datasetCorrect final_results) p.1)
        ((lookup0 (datasetCorrect final_results) p.1 : Rat) / (p.2 : Rat)))

/-- NumPy `np.mean` of a list of rationals: sum divided by length. -/
def npMean (l : List Rat) : Rat :=
  l.sum / (l.length : Rat)

/-- Lines 19-54: `compute_metrics_fn`. Builds the per-sample decision
records, groups them by dataset, emits one row per dataset followed by
the synthetic average row (`np.mean` of the per-dataset accuracies,
`0.0` when there are no rows). -/
def computeMetricsFn (eval_results : List EvalResult) (k : Nat)
    (agg_method : AggMethod) : List Metric :=
  let metrics := datasetRows (finalResultsOf eval_results k agg_method)
  let average_accuracy :=
    if metrics = [] then (0 : Rat) else npMean (metrics.map Metric.accuracy)
  metrics ++ [Metric.average average_accuracy]

/-! ## The evaluation loop (lines 112-139) and grading loop (lines 148-153) -/

/-- A loaded dataset record: a loosely-typed mapping from string keys to
string values (the JSON-ish dicts returned by `load_datasets`). -/
abbrev Sample : Type := List (String × String)

/-- Python `sample.get(key)`: the value of the first entry with key `key`. -/
def Sample.get (s : Sample) (key : String) : Option String :=
  ((List.find? (fun p => p.1 = key) s).map (fun p => p.2))

/-- Python `sample.get(key)` coerced to truthiness: a missing key and an
empty string are both falsy. -/
def Sample.getTruthy (s : Sample) (key : String) : Option String :=
  match s.get key with
  | none => none
  | some v => if v = "" then none else some v

/-- Line 113: `next((sample.get(k) for k in ["question", "prompt",
"input", "problem"] if sample.get(k)), None)` — the first truthy value
among the four recognized question fields. -/
def findPrompt (s : Sample) : Option String :=
  (["question", "prompt", "input", "problem"].filterMap s.getTruthy).head?

/-- One element of the `generations` list (lines 127-133), before the
grading loop adds the `correct` key. -/
structure Gen where
  dataset : String
  question : String
  response : String
  pred : String
  gt_ans : String
deriving DecidableEq, Repr

/-- The external collaborators of the loop, as explicit functions:
`generate_output` (which may raise — `Except`), `extract_and_strip`,
`parse_ground_truth(...)[-1]`, and the `--data_name` argument. -/
structure Config where
  generate : String → Except String String
  extract : String → String → String
  parseGroundTruth : Sample → String → String
  data_name : String

/-- Lines 113-135 for a single sample: `none` means the sample was
skipped (`continue`) — either no recognized question field was truthy,
or the generation call raised. Otherwise the constructed generation
record, with `gt_ans = sample.get("answer") or
parse_ground_truth(sample, args.data_name)[-1]` (truthy `or`). -/
def processSample (cfg : Config) (s : Sample) : Option Gen :=
  match findPrompt s with
  | none => none
  | some prompt =>
    match cfg.generate prompt with
    | .error _ => none
    | .ok output_text =>
      some
        { dataset := cfg.data_name
          question := prompt
          response := output_text
          pred := cfg.extract output_text cfg.data_name
          gt_ans :=
            match s.getTruthy "answer" with
            | some a => a
            | none => cfg.parseGroundTruth s cfg.data_name }

/-- Line 110: `checkpoint_interval = 100`. -/
def checkpoint_interval : Nat := 100

/-- The loop's mutable state: the accumulated `generations` list and the
content of `checkpoint_generations.jsonl` (`none` while the file has
never been written; each write replaces it wholesale). -/
structure LoopState where
  generations : List Gen
  checkpoint : Option (List Gen)
deriving DecidableEq, Repr

/-- One iteration of the `for idx, sample in enumerate(...)` loop
(lines 112-139): a skipped sample leaves the state untouched (the
`continue` also skips the checkpoint test); otherwise the record is
appended and, when `(idx + 1) % checkpoint_interval == 0`, the file is
overwritten with the whole accumulated list. -/
def stepSample (cfg : Config) : LoopState × Nat → Sample → LoopState × Nat
  | (st, idx), s =>
    match processSample cfg s with
    | none => (st, idx + 1)
    | some gen =>
      let gens := st.generations ++ [gen]
      let cp := if (idx + 1) % checkpoint_interval = 0 then some gens else st.checkpoint
      (⟨gens, cp⟩, idx + 1)

/-- The whole generation loop over the loaded dataset, starting from an
empty `generations` list and an unwritten checkpoint file. -/
def runLoop (cfg : Config) (datasets : List Sample) : LoopState :=
  (datasets.foldl (stepSample cfg) (⟨[], none⟩, 0)).1

/-- A generation record after the grading loop set its `correct` key. -/
structure GradedGen extends Gen where
  correct : Bool
deriving DecidableEq, Repr

/-- Lines 148-153: `gen["correct"] = math_equal(gen["pred"], gen["gt_ans"])`
inside `try`, with `except: gen["correct"] = False`. The grader is a
parameter returning `Except` (it may raise). Every record stays in the
list, in place. -/
def gradeAll (math_equal : String → String → Except String Bool)
    (generations : List Gen) : List GradedGen :=
  generations.map
    (fun gen =>
      { gen with
        correct :=
          match math_equal gen.pred gen.gt_ans with
          | .ok b => b
          | .error _ => false })

/-- Lines 76-77: `if args.num_test_sample: datasets = datasets[:args.num_test_sample]`.
The guard is Python truthiness on an `int` (0 is falsy, negative values
are truthy); the slice `datasets[:n]` keeps the first `n` elements for
`n ≥ 0` and drops the last `|n|` for `n < 0`. -/
def applyNumTestSample (num_test_sample : Int) (datasets : List Sample) :
    List Sample :=
  if num_test_sample = 0 then datasets
  else if 0 ≤ num_test_sample then datasets.take num_test_sample.toNat
  else datasets.take (datasets.length - (-num_test_sample).toNat)

/-! ## Auxiliary definitions used by the statements below -/

/-- The distinct elements of `names` in first-seen order (the iteration
order of a CPython dict keyed in input order). -/
def firstSeen (names : List String) : List String :=
  names.foldl insertKey []

/-- State-passing form of `compute_metrics_fn`: the state is the
caller-visible `eval_results` list, the one mutable object the caller
passes in. Every step either reads the state or constructs fresh local
values; a mutation of the argument would have to show up as a `set` and
hence in the returned state. -/
def computeMetricsFnSt (k : Nat) (agg_method : AggMethod) :
    StateM (List EvalResult) (List Metric) := do
  let eval_results ← get
  let final_results := finalResultsOf eval_results k agg_method
  let metrics := datasetRows final_results
  let average_accuracy :=
    if metrics = [] then (0 : Rat) else npMean (metrics.map Metric.accuracy)
  pure (metrics ++ [Metric.average average_accuracy])

/-- The spec's end-to-end scenario: three `college_math` samples with
correctness flags `[true, false, true]`. -/
def collegeMathInput : List EvalResult :=
  [⟨"college_math", [⟨"a", none, true⟩]⟩,
   ⟨"college_math", [⟨"b", none, false⟩]⟩,
   ⟨"college_math", [⟨"c", none, true⟩]⟩]

/-- A configuration whose generation backend always raises. -/
def cfgRaise : Config :=
  ⟨fun _ => .error "backend failure", fun text _ => text, fun _ _ => "gt", "d"⟩

/-- A configuration whose generation backend always succeeds, echoing
the prompt. -/
def cfgOk : Config :=
  ⟨fun prompt => .ok prompt, fun text _ => text, fun _ _ => "gt", "d"⟩

/-! ## Shared lemmas about the grouping fold -/

theorem keys_bump (m : List (String × Nat)) (d : String) :
    (bump m d).map Prod.fst = insertKey (m.map Prod.fst) d := by
  induction m with
  | nil => rfl
  | cons p rest ih =>
    obtain ⟨a, n⟩ := p
    by_cases h : a = d
    · subst h
      simp [bump, insertKey]
    · rw [show bump ((a, n) :: rest) d = (a, n) :: bump rest d from by
        simp [bump, h]]
      simp only [List.map_cons, ih, insertKey]
      by_cases hd : d ∈ rest.map Prod.fst
      · simp [hd, List.mem_cons, Ne.symm h]
      · simp [hd, List.mem_cons, Ne.symm h]

theorem pos_of_mem_bump (m : List (String × Nat)) (d : String) :
    ∀ p ∈ bump m d, 0 < p.2 ∨ p ∈ m := by
  induction m with
  | nil =>
    intro p hp
    simp only [bump, List.mem_singleton] at hp
    subst hp
    exact Or.inl Nat.one_pos
  | cons q rest ih =>
    obtain ⟨a, n⟩ := q
    intro p hp
    by_cases h : a = d
    · subst h
      rw [show bump ((a, n) :: rest) a = (a, n + 1) :: rest from by
        simp [bump]] at hp
      rcases List.mem_cons.mp hp with rfl | hp
      · exact Or.inl (Nat.succ_pos n)
      · exact Or.inr (List.mem_cons_of_mem _ hp)
    · rw [show bump ((a, n) :: rest) d = (a, n) :: bump rest d from by
        simp [bump, h]] at hp
      rcases List.mem_cons.mp hp with rfl | hp
      · exact Or.inr (List.mem_cons_self _ _)
      · rcases ih p hp with hpos | hmem
        · exact Or.inl hpos
        · exact Or.inr (List.mem_cons_of_mem _ hmem)

theorem foldl_bump_pos (l : List Decision) :
    ∀ m0 : List (String × Nat), (∀ p ∈ m0, 0 < p.2) →
      ∀ p ∈ l.foldl (fun m r => bump m r.dataset) m0, 0 < p.2 := by
  induction l with
  | nil => exact fun m0 h0 p hp => h0 p hp
  | cons r rest ih =>
    intro m0 h0 p hp
    refine ih (bump m0 r.dataset) ?_ p hp
    intro q hq
    rcases pos_of_mem_bump m0 r.dataset q hq with h | h
    · exact h
    · exact h0 q h

theorem keys_foldl_bump (names : List String) :
    ∀ m0 : List (String × Nat),
      (names.foldl bump m0).map Prod.fst =
        names.foldl insertKey (m0.map Prod.fst) := by
  induction names with
  | nil => intro m0; rfl
  | cons d rest ih =>
    intro m0
    rw [List.foldl_cons, List.foldl_cons, ih (bump m0 d), keys_bump]

theorem datasetCounts_keys (l : List Decision) :
    (datasetCounts l).map Prod.fst = firstSeen (l.map (fun r => r.dataset)) := by
  unfold datasetCounts firstSeen
  rw [← List.foldl_map (fun r : Decision => r.dataset) bump]
  exact keys_foldl_bump _ []

/-! ## Claims about `compute_metrics_fn` -/

/-- C1: For every input, the final entry of `compute_metrics_fn` is the
synthetic Average row, equal to the unweighted arithmetic mean (sum divided
by number of per-dataset rows, every dataset counted once regardless of its
sample count) of the per-dataset accuracies, and `0` when the per-dataset
metric list is empty. -/
theorem average_row_is_unweighted_mean (eval_results : List EvalResult)
    (k : Nat) (agg_method : AggMethod) :
    (computeMetricsFn eval_results k agg_method).getLast? =
      some (Metric.average
        (if (computeMetricsFn eval_results k agg_method).dropLast = [] then 0
         else ((computeMetricsFn eval_results k agg_method).dropLast.map
              Metric.accuracy).sum /
            (((computeMetricsFn eval_results k agg_method).dropLast.length : Nat) :
              Rat))) := by
  unfold computeMetricsFn
  simp only [List.dropLast_concat, List.getLast?_concat, npMean, List.length_map]

/-- C2: The per-dataset rows of `compute_metrics_fn` (everything before
the Average row) are exactly one row per grouped dataset, with
`accuracy = correct / total` as an exact rational and `total > 0`: a
dataset enters the grouping only by contributing at least one decision
record, so the division is never performed with a zero divisor. -/
theorem per_dataset_rows_exact (eval_results : List EvalResult) (k : Nat)
    (agg_method : AggMethod) :
    (∀ p ∈ datasetCounts (finalResultsOf eval_results k agg_method), 0 < p.2)
    ∧ (computeMetricsFn eval_results k agg_method).dropLast =
        (datasetCounts (finalResultsOf eval_results k agg_method)).map
          (fun p =>
            Metric.row p.1 p.2
              (lookup0 (datasetCorrect (finalResultsOf eval_results k agg_method))
                p.1)
              ((lookup0 (datasetCorrect (finalResultsOf eval_results k agg_method))
                  p.1 : Rat) / (p.2 : Rat))) := by
  constructor
  · intro p hp
    exact foldl_bump_pos _ [] (by simp) p (by simpa [datasetCounts] using hp)
  · unfold computeMetricsFn
    simp [List.dropLast_concat, datasetRows]

theorem per_dataset_rows_exact_witness :
    0 < (("college_math", 3) : String × Nat).2 :=
  (per_dataset_rows_exact collegeMathInput 1 .pass).1 ("college_math", 3) (by decide)

/-- C4: With `k = 1` and the `pass` aggregation, each sample's decision
record carries exactly the correctness flag of its first generation
record; on the spec's scenario (three `college_math` samples with flags
`[true, false, true]`) the metrics are accuracy 2/3 for `college_math` and
Average 2/3, which is 0.667 to three decimal places. -/
theorem pass_at_one_reproduces_flag :
    (∀ (sample : EvalResult) (g : GenRecord) (rest : List GenRecord),
        sample.generation = g :: rest →
        (AGG_FN_MAP .pass (evalSamplesOf sample 1)).correct = g.correct)
    ∧ computeMetricsFn collegeMathInput 1 .pass =
        [Metric.row "college_math" 3 2 (2 / 3), Metric.average (2 / 3)]
    ∧ round ((2 : Rat) / 3 * 1000) = 667 := by
  refine ⟨?_, ?_, ?_⟩
  · intro sample g rest h
    simp [evalSamplesOf, h, AGG_FN_MAP, passAgg]
  · simp only [collegeMathInput, computeMetricsFn, datasetRows, datasetCounts,
      datasetCorrect, finalResultsOf, evalSamplesOf, AGG_FN_MAP, passAgg, bump,
      lookup0, npMean, Metric.accuracy, List.map, List.foldl, List.find?,
      List.take]
    norm_num [Metric.accuracy, npMean]
  · rw [round_eq, Int.floor_eq_iff]
    norm_num

theorem pass_at_one_reproduces_flag_witness :
    (AGG_FN_MAP .pass (evalSamplesOf ⟨"d", [⟨"x", none, true⟩]⟩ 1)).correct = true :=
  pass_at_one_reproduces_flag.1 ⟨"d", [⟨"x", none, true⟩]⟩ ⟨"x", none, true⟩ [] rfl

/-- C9: `compute_metrics_fn` is pure: run in state-passing form over the
caller's `eval_results` list (the one caller-visible mutable object passed
in), it returns that state unchanged, and its value is `computeMetricsFn`
applied to exactly `eval_results`, `k` and `agg_method` — identical across
runs on identical inputs. -/
theorem compute_metrics_pure (eval_results : List EvalResult) (k : Nat)
    (agg_method : AggMethod) :
    (computeMetricsFnSt k agg_method).run eval_results =
      (computeMetricsFn eval_results k agg_method, eval_results) := rfl

/-- C10: The guard `if args.num_test_sample:` is Python truthiness: the
value 0 disables the cap entirely (no truncation, every loaded sample is
kept), while a positive value keeps exactly the first `num_test_sample`
samples (all of them when the dataset is shorter). -/
theorem num_test_sample_zero_disables_cap :
    (∀ datasets : List Sample, applyNumTestSample 0 datasets = datasets)
    ∧ (∀ (n : Int) (datasets : List Sample), 0 < n →
        applyNumTestSample n datasets = datasets.take n.toNat)
    ∧ (∀ (n : Int) (datasets : List Sample), 0 < n → n.toNat ≤ datasets.length →
        (applyNumTestSample n datasets).length = n.toNat) := by
  refine ⟨fun ds => by simp [applyNumTestSample], ?_, ?_⟩
  · intro n ds hn
    simp [applyNumTestSample, hn.ne', hn.le]
  · intro n ds hn hlen
    simp [applyNumTestSample, hn.ne', hn.le, List.length_take,
      Nat.min_eq_left hlen]

theorem num_test_sample_cap_witness :
    applyNumTestSample 2
        [[("question", "a")], [("question", "b")], [("question", "c")]] =
      (([[("question", "a")], [("question", "b")], [("question", "c")]] :
        List Sample).take (Int.toNat 2)) :=
  num_test_sample_zero_disables_cap.2.1 2 _ (by decide)

theorem majorityVote_dataset (r0 : EvalSample) (tl : List EvalSample) :
    (majorityVote (r0 :: tl)).dataset = r0.dataset := by
  cases hm : modalAns (r0 :: tl) with
  | none => simp [majorityVote, hm]
  | some a =>
    cases hf : (r0 :: tl).find? (fun r => r.ans = a) with
    | none => simp [majorityVote, hm, hf]
    | some rep => simp [majorityVote, hm, hf]

theorem decision_dataset_eq (sample : EvalResult) (k : Nat) (m : AggMethod)
    (hk : 0 < k) (hgen : sample.generation ≠ []) :
    (AGG_FN_MAP m (evalSamplesOf sample k)).dataset = sample.dataset := by
  obtain ⟨g, rest, hg⟩ := List.exists_cons_of_ne_nil hgen
  obtain ⟨k', rfl⟩ := Nat.exists_eq_succ_of_ne_zero hk.ne'
  cases m with
  | pass => simp [evalSamplesOf, hg, AGG_FN_MAP, passAgg, List.take_succ_cons]
  | majority_vote =>
    simp [evalSamplesOf, hg, AGG_FN_MAP, List.take_succ_cons, majorityVote_dataset]

theorem finalResults_datasets (eval_results : List EvalResult) (k : Nat)
    (m : AggMethod) (hk : 0 < k)
    (hgen : ∀ s ∈ eval_results, s.generation ≠ []) :
    (finalResultsOf eval_results k m).map (fun r => r.dataset) =
      eval_results.map (fun s => s.dataset) := by
  unfold finalResultsOf
  rw [List.map_map]
  exact List.map_congr_left
    (fun s hs => decision_dataset_eq s k m hk (hgen s hs))

theorem filterMap_datasetName_rows (fr : List Decision) :
    (datasetRows fr).filterMap Metric.datasetName =
      (datasetCounts fr).map Prod.fst := by
  unfold datasetRows
  induction datasetCounts fr with
  | nil => rfl
  | cons p ps ih => simp [List.filterMap_cons, Metric.datasetName, ih]

/-- C3: The output of `compute_metrics_fn` is the per-dataset rows, in
the first-seen order of the dataset names of the input samples, followed by
exactly one Average row. (Determinism given identical input ordering is
definitional for the embedding: CPython dicts iterate in insertion order,
embedded here as ordered association lists, so nothing depends on hash
ordering.) -/
theorem metrics_rows_first_seen_order (eval_results : List EvalResult)
    (k : Nat) (agg_method : AggMethod) (hk : 0 < k)
    (hgen : ∀ s ∈ eval_results, s.generation ≠ []) :
    ((computeMetricsFn eval_results k agg_method).dropLast.filterMap
        Metric.datasetName) =
      firstSeen (eval_results.map (fun s => s.dataset))
    ∧ (∃ v, computeMetricsFn eval_results k agg_method =
        (computeMetricsFn eval_results k agg_method).dropLast
          ++ [Metric.average v])
    ∧ ∀ r ∈ (computeMetricsFn eval_results k agg_method).dropLast,
        r.datasetName ≠ none := by
  have hdrop : (computeMetricsFn eval_results k agg_method).dropLast =
      datasetRows (finalResultsOf eval_results k agg_method) := by
    unfold computeMetricsFn
    simp [List.dropLast_concat]
  refine ⟨?_, ?_, ?_⟩
  · rw [hdrop, filterMap_datasetName_rows, datasetCounts_keys,
      finalResults_datasets eval_results k agg_method hk hgen]
  · refine ⟨(if datasetRows (finalResultsOf eval_results k agg_method) = []
        then (0 : Rat)
        else npMean ((datasetRows (finalResultsOf eval_results k agg_method)).map
          Metric.accuracy)), ?_⟩
    rw [hdrop]
    rfl
  · intro r hr
    rw [hdrop] at hr
    unfold datasetRows at hr
    obtain ⟨p, hp, rfl⟩ := List.mem_map.mp hr
    simp [Metric.datasetName]

theorem metrics_rows_first_seen_order_witness :
    ((computeMetricsFn collegeMathInput 1 .pass).dropLast.filterMap
        Metric.datasetName) =
      firstSeen (collegeMathInput.map (fun s => s.dataset)) :=
  (metrics_rows_first_seen_order collegeMathInput 1 .pass (by decide)
    (by decide)).1

/-! ## Claims about the evaluation and grading loops -/

/-- C6: When the grader raises on a record, the grading loop records
`correct = False` for that record and moves on: the graded list keeps the
same length, and the failing record's position holds its original fields
with `correct := false`, so it still feeds downstream aggregation. -/
theorem grading_error_marks_false
    (math_equal : String → String → Except String Bool)
    (generations : List Gen) (i : Nat) (gen : Gen) (e : String)
    (hget : generations[i]? = some gen)
    (herr : math_equal gen.pred gen.gt_ans = .error e) :
    (gradeAll math_equal generations)[i]? =
        some { toGen := gen, correct := false }
    ∧ (gradeAll math_equal generations).length = generations.length := by
  constructor
  · unfold gradeAll
    rw [List.getElem?_map, hget]
    simp [herr]
  · simp [gradeAll]

theorem grading_error_marks_false_witness :
    (gradeAll (fun _ _ => .error "raise") [⟨"d", "q", "r", "p", "g"⟩])[0]? =
        some { toGen := ⟨"d", "q", "r", "p", "g"⟩, correct := false }
    ∧ (gradeAll (fun _ _ => .error "raise") [⟨"d", "q", "r", "p", "g"⟩]).length =
        [(⟨"d", "q", "r", "p", "g"⟩ : Gen)].length :=
  grading_error_marks_false (fun _ _ => .error "raise")
    [⟨"d", "q", "r", "p", "g"⟩] 0 ⟨"d", "q", "r", "p", "g"⟩ "raise" rfl rfl

theorem runLoop_generations_aux (cfg : Config) (datasets : List Sample) :
    ∀ (st : LoopState) (idx : Nat),
      ((datasets.foldl (stepSample cfg) (st, idx)).1).generations =
        st.generations ++ datasets.filterMap (processSample cfg) := by
  induction datasets with
  | nil => intro st idx; simp
  | cons s rest ih =>
    intro st idx
    rw [List.foldl_cons, List.filterMap_cons]
    cases hp : processSample cfg s with
    | none => rw [show stepSample cfg (st, idx) s = (st, idx + 1) from by
        simp [stepSample, hp]]; exact ih st (idx + 1)
    | some gen =>
      rw [show stepSample cfg (st, idx) s =
          (⟨st.generations ++ [gen],
            if (idx + 1) % checkpoint_interval = 0
            then some (st.generations ++ [gen]) else st.checkpoint⟩, idx + 1)
        from by simp [stepSample, hp]]
      rw [ih]
      simp

/-- C7: A sample with no truthy recognized question field, and a sample
on which the generation call raises, are skipped: `processSample` returns
`none` for them, and the loop's `generations` list is exactly the
`filterMap` of `processSample` over the dataset — skipped samples
contribute nothing downstream, and the loop itself is a total function
(no failure is fatal to the run). -/
theorem generation_skips_excluded (cfg : Config) (datasets : List Sample) :
    (runLoop cfg datasets).generations =
        datasets.filterMap (processSample cfg)
    ∧ (∀ s : Sample, findPrompt s = none → processSample cfg s = none)
    ∧ (∀ (s : Sample) (prompt err : String), findPrompt s = some prompt →
        cfg.generate prompt = .error err → processSample cfg s = none) := by
  refine ⟨runLoop_generations_aux cfg datasets ⟨[], none⟩ 0, ?_, ?_⟩
  · intro s h
    simp [processSample, h]
  · intro s prompt err h1 h2
    simp [processSample, h1, h2]

theorem generation_skips_excluded_witness :
    processSample cfgRaise [] = none
    ∧ processSample cfgRaise [("question", "q")] = none :=
  ⟨(generation_skips_excluded cfgRaise []).2.1 [] rfl,
   (generation_skips_excluded cfgRaise []).2.2 [("question", "q")] "q"
     "backend failure" rfl rfl⟩

theorem stepSample_eq (cfg : Config) (st : LoopState) (idx : Nat) (s : Sample) :
    stepSample cfg (st, idx) s =
      match processSample cfg s with
      | none => (st, idx + 1)
      | some gen =>
          (⟨st.generations ++ [gen],
            if (idx + 1) % checkpoint_interval = 0
            then some (st.generations ++ [gen]) else st.checkpoint⟩,
           idx + 1) := rfl

theorem runLoop_idx_aux (cfg : Config) (datasets : List Sample) :
    ∀ (st : LoopState) (idx : Nat),
      (datasets.foldl (stepSample cfg) (st, idx)).2 = idx + datasets.length := by
  induction datasets with
  | nil => intro st idx; simp
  | cons s rest ih =>
    intro st idx
    rw [List.foldl_cons, stepSample_eq]
    cases hp : processSample cfg s with
    | none =>
      simp only []
      rw [ih st (idx + 1), List.length_cons]
      omega
    | some gen =>
      simp only []
      rw [ih _ (idx + 1), List.length_cons]
      omega

theorem runLoop_cp_aux (cfg : Config) (datasets : List Sample) :
    ∀ (st : LoopState) (idx : Nat),
      (∀ j, j < datasets.length → (idx + j + 1) % checkpoint_interval ≠ 0) →
      ((datasets.foldl (stepSample cfg) (st, idx)).1).checkpoint =
        st.checkpoint := by
  induction datasets with
  | nil => intro st idx h; rfl
  | cons s rest ih =>
    intro st idx h
    have h0 : (idx + 1) % checkpoint_interval ≠ 0 := by
      have := h 0 (by simp)
      simpa using this
    have hshift : ∀ j, j < rest.length →
        (idx + 1 + j + 1) % checkpoint_interval ≠ 0 := by
      intro j hj
      have := h (j + 1) (by simp [List.length_cons]; omega)
      rw [show idx + 1 + j + 1 = idx + (j + 1) + 1 from by omega]
      exact this
    rw [List.foldl_cons, stepSample_eq]
    cases hp : processSample cfg s with
    | none =>
      simp only []
      exact ih st (idx + 1) hshift
    | some gen =>
      simp only [if_neg h0]
      exact ih ⟨st.generations ++ [gen], st.checkpoint⟩ (idx + 1) hshift

theorem length_filterMap_of_isSome {α β : Type} (f : α → Option β)
    (l : List α) (h : ∀ x ∈ l, (f x).isSome) :
    (l.filterMap f).length = l.length := by
  induction l with
  | nil => rfl
  | cons x rest ih =>
    rw [List.filterMap_cons]
    cases hf : f x with
    | none => exact absurd (h x (List.mem_cons_self x rest)) (by simp [hf])
    | some b =>
      simp only [List.length_cons]
      rw [ih (fun y hy => h y (List.mem_cons_of_mem _ hy))]

/-- C8: In a run where every sample is processed successfully, after
150 samples the checkpoint file holds exactly the 100 records produced by
the first 100 samples: it was overwritten wholesale with the accumulated
generation list at the 100th-sample boundary and is untouched by samples
101-150 (the next write would come at the 200th). -/
theorem checkpoint_at_100_boundary (cfg : Config) (datasets : List Sample)
    (hall : ∀ s ∈ datasets, (processSample cfg s).isSome)
    (hlen : datasets.length = 150) :
    (runLoop cfg datasets).checkpoint =
        some ((datasets.take 100).filterMap (processSample cfg))
    ∧ ((datasets.take 100).filterMap (processSample cfg)).length = 100
    ∧ (runLoop cfg datasets).checkpoint =
        (runLoop cfg (datasets.take 100)).checkpoint := by
  have htake_len : (datasets.take 100).length = 100 := by
    rw [List.length_take, hlen]
    omega
  have hlen2 : ((datasets.take 100).filterMap (processSample cfg)).length = 100 := by
    rw [length_filterMap_of_isSome _ _
      (fun x hx => hall x (List.take_subset _ _ hx)), htake_len]
  have h99 : 99 < (datasets.take 100).length := by
    rw [htake_len]
    omega
  have hlen99 : ((datasets.take 100).take 99).length = 99 := by
    rw [List.length_take, htake_len]
    omega
  have hxmem : (datasets.take 100).get ⟨99, h99⟩ ∈ datasets :=
    List.take_subset _ _ (List.get_mem _ _ _)
  obtain ⟨g, hg⟩ := Option.isSome_iff_exists.mp (hall _ hxmem)
  have hsplit : datasets.take 100 =
      (datasets.take 100).take 99 ++ [(datasets.take 100).get ⟨99, h99⟩] := by
    conv_lhs => rw [← List.take_append_drop 99 (datasets.take 100)]
    congr 1
    rw [List.drop_eq_getElem_cons h99,
      List.drop_eq_nil_of_le (by rw [htake_len])]
    simp
  have hrunt : (datasets.take 100).foldl (stepSample cfg) (⟨[], none⟩, 0) =
      stepSample cfg
        (((datasets.take 100).take 99).foldl (stepSample cfg) (⟨[], none⟩, 0))
        ((datasets.take 100).get ⟨99, h99⟩) := by
    conv_lhs => rw [hsplit]
    rw [List.foldl_append]
    rfl
  rcases hq : ((datasets.take 100).take 99).foldl (stepSample cfg) (⟨[], none⟩, 0)
    with ⟨st99, idx99⟩
  have hidx : idx99 = 99 := by
    have := runLoop_idx_aux cfg ((datasets.take 100).take 99) ⟨[], none⟩ 0
    rw [hq] at this
    simpa [hlen99] using this
  have hcp99 : st99.checkpoint = none := by
    have := runLoop_cp_aux cfg ((datasets.take 100).take 99) ⟨[], none⟩ 0 ?_
    · rw [hq] at this
      exact this
    · intro j hj
      rw [hlen99] at hj
      simp only [checkpoint_interval]
      omega
  have hgen99 : st99.generations =
      ((datasets.take 100).take 99).filterMap (processSample cfg) := by
    have := runLoop_generations_aux cfg ((datasets.take 100).take 99) ⟨[], none⟩ 0
    rw [hq] at this
    simpa using this
  have hstep : stepSample cfg (st99, idx99) ((datasets.take 100).get ⟨99, h99⟩) =
      (⟨st99.generations ++ [g], some (st99.generations ++ [g])⟩, idx99 + 1) := by
    rw [stepSample_eq, hg]
    simp only [hidx]
    rw [if_pos (by simp [checkpoint_interval])]
  have h100 : (runLoop cfg (datasets.take 100)).checkpoint =
      some ((datasets.take 100).filterMap (processSample cfg)) := by
    unfold runLoop
    rw [hrunt, hq, hstep]
    simp only []
    rw [hgen99]
    congr 1
    conv_rhs => rw [hsplit]
    rw [List.filterMap_append]
    congr 1
    rw [List.filterMap_cons, hg]
    rfl
  have hdroplen : (datasets.drop 100).length = 50 := by
    rw [List.length_drop, hlen]
  have hrest : (runLoop cfg datasets).checkpoint =
      (runLoop cfg (datasets.take 100)).checkpoint := by
    unfold runLoop
    conv_lhs => rw [← List.take_append_drop 100 datasets]
    rw [List.foldl_append]
    rcases hq100 : (datasets.take 100).foldl (stepSample cfg) (⟨[], none⟩, 0)
      with ⟨st100, idx100⟩
    have hidx100 : idx100 = 100 := by
      have := runLoop_idx_aux cfg (datasets.take 100) ⟨[], none⟩ 0
      rw [hq100] at this
      simpa [htake_len] using this
    have hconst := runLoop_cp_aux cfg (datasets.drop 100) st100 idx100 ?_
    · rw [hconst]
    · intro j hj
      rw [hdroplen] at hj
      rw [hidx100]
      simp only [checkpoint_interval]
      omega
  exact ⟨hrest.trans h100, hlen2, hrest⟩

set_option maxRecDepth 20000 in
theorem checkpoint_at_100_boundary_witness :
    (runLoop cfgOk (List.replicate 150 [("question", "q")])).checkpoint =
        some (((List.replicate 150 [("question", "q")]).take 100).filterMap
          (processSample cfgOk))
    ∧ (((List.replicate 150 [("question", "q")]).take 100).filterMap
        (processSample cfgOk)).length = 100
    ∧ (runLoop cfgOk (List.replicate 150 [("question", "q")])).checkpoint =
        (runLoop cfgOk
          ((List.replicate 150 [("question", "q")]).take 100)).checkpoint :=
  checkpoint_at_100_boundary cfgOk _ (by decide) (by decide)

/-! ## C5: `majority_vote` and permutations -/

theorem mem_insertKey (ks : List String) (a x : String) :
    x ∈ insertKey ks a ↔ x ∈ ks ∨ x = a := by
  unfold insertKey
  by_cases h : a ∈ ks
  · rw [if_pos h]
    constructor
    · exact Or.inl
    · rintro (hx | rfl)
      · exact hx
      · exact h
  · rw [if_neg h]
    simp [List.mem_append]

theorem mem_foldl_insertKey (l : List EvalSample) :
    ∀ (ks : List String) (x : String),
      x ∈ l.foldl (fun ks r => insertKey ks r.ans) ks ↔
        x ∈ ks ∨ x ∈ l.map (fun r => r.ans) := by
  induction l with
  | nil => simp
  | cons r rest ih =>
    intro ks x
    rw [List.foldl_cons, ih, mem_insertKey]
    simp only [List.map_cons, List.mem_cons]
    tauto

theorem mem_firstSeenAns (l : List EvalSample) (x : String) :
    x ∈ firstSeenAns l ↔ x ∈ l.map (fun r => r.ans) := by
  unfold firstSeenAns
  rw [mem_foldl_insertKey]
  simp

theorem foldBest_eq_max (l : List EvalSample) (a : String)
    (hmax : ∀ b ∈ l.map (fun r => r.ans), b ≠ a →
      ansCount l b < ansCount l a) :
    ∀ (ks : List String) (init : Option String),
      (∀ x ∈ ks, x ∈ l.map (fun r => r.ans)) →
      (a ∈ ks ∨ init = some a) →
      (init = none ∨ ∃ c, init = some c ∧
        (c = a ∨ (c ∈ l.map (fun r => r.ans) ∧ ansCount l c < ansCount l a))) →
      ks.foldl
        (fun best x =>
          match best with
          | none => some x
          | some b => if ansCount l x > ansCount l b then some x else some b)
        init = some a := by
  intro ks
  induction ks with
  | nil =>
    intro init hks hin hvalid
    rcases hin with h | h
    · exact absurd h (List.not_mem_nil a)
    · simpa using h
  | cons x rest ih =>
    intro init hks hin hvalid
    have hxmem : x ∈ l.map (fun r => r.ans) := hks x (List.mem_cons_self x rest)
    rw [List.foldl_cons]
    apply ih
    · exact fun y hy => hks y (List.mem_cons_of_mem _ hy)
    · by_cases har : a ∈ rest
      · exact Or.inl har
      · right
        have hax : x = a ∨ init = some a := by
          rcases hin with hin | hin
          · rcases List.mem_cons.mp hin with h | h
            · exact Or.inl h.symm
            · exact absurd h har
          · exact Or.inr hin
        rcases hax with rfl | hinit
        · rcases hvalid with rfl | ⟨c, rfl, hc⟩
          · rfl
          · rcases hc with rfl | ⟨hcmem, hclt⟩
            · show (if ansCount l c > ansCount l c then some c else some c) =
                some c
              exact ite_self _
            · show (if ansCount l x > ansCount l c then some x else some c) =
                some x
              exact if_pos hclt
        · rw [hinit]
          by_cases hxa : x = a
          · subst hxa
            show (if ansCount l x > ansCount l x then some x else some x) =
              some x
            exact ite_self _
          · show (if ansCount l x > ansCount l a then some x else some a) =
              some a
            exact if_neg (lt_asymm (hmax x hxmem hxa))
    · right
      rcases hvalid with rfl | ⟨c, rfl, hc⟩
      · refine ⟨x, rfl, ?_⟩
        by_cases hxa : x = a
        · exact Or.inl hxa
        · exact Or.inr ⟨hxmem, hmax x hxmem hxa⟩
      · by_cases hcond : ansCount l x > ansCount l c
        · refine ⟨x, ?_, ?_⟩
          · show (if ansCount l x > ansCount l c then some x else some c) =
              some x
            exact if_pos hcond
          · by_cases hxa : x = a
            · exact Or.inl hxa
            · exact Or.inr ⟨hxmem, hmax x hxmem hxa⟩
        · refine ⟨c, ?_, hc⟩
          show (if ansCount l x > ansCount l c then some x else some c) = some c
          exact if_neg hcond

theorem modalAns_eq_of_strict_max (l : List EvalSample) (a : String)
    (ha : a ∈ l.map (fun r => r.ans))
    (hmax : ∀ b ∈ l.map (fun r => r.ans), b ≠ a →
      ansCount l b < ansCount l a) :
    modalAns l = some a := by
  unfold modalAns
  apply foldBest_eq_max l a hmax
  · exact fun x hx => (mem_firstSeenAns l x).mp hx
  · exact Or.inl ((mem_firstSeenAns l a).mpr ha)
  · exact Or.inl rfl

theorem ansCount_perm {l l' : List EvalSample} (h : List.Perm l' l)
    (x : String) : ansCount l' x = ansCount l x := by
  unfold ansCount
  exact (h.filter _).length_eq

theorem majorityVote_cons_eq (r0 : EvalSample) (tl : List EvalSample)
    (a : String) (rep : EvalSample)
    (hm : modalAns (r0 :: tl) = some a)
    (hf : (r0 :: tl).find? (fun r => r.ans = a) = some rep) :
    majorityVote (r0 :: tl) = ⟨r0.dataset, some a, rep.correct⟩ := by
  simp [majorityVote, hm, hf]

/-- C5 (counterexample): The `majority_vote` decision is not invariant
under permutation of the k records: with one correct `"A"` record and one
incorrect `"B"` record the two groups tie, the earliest-occurring group
wins the tie-break, and so the decision follows the input order — the two
orderings of the same two records are a permutation of each other yet
yield different decisions. -/
theorem majority_vote_not_perm_invariant :
    List.Perm
        [(⟨"d", "B", none, false⟩ : EvalSample), ⟨"d", "A", none, true⟩]
        [⟨"d", "A", none, true⟩, ⟨"d", "B", none, false⟩]
    ∧ majorityVote [⟨"d", "B", none, false⟩, ⟨"d", "A", none, true⟩] ≠
        majorityVote [⟨"d", "A", none, true⟩, ⟨"d", "B", none, false⟩] :=
  ⟨List.Perm.swap _ _ _, by decide⟩

/-- C5 (amended): `majority_vote` is permutation-invariant whenever no
tie-break is needed: if all records carry the same dataset name, records
with equal answers carry equal correctness flags, and some answer `a`
occurs strictly more often than every other answer (a unique modal group),
then every permutation of the records yields the same decision record.
Ties are broken by the earliest-occurring group, so tied inputs remain
order-dependent (see the counterexample). -/
theorem majority_vote_perm_invariant_of_unique_mode
    (l l' : List EvalSample) (d0 a : String)
    (hperm : List.Perm l' l) (hne : l ≠ [])
    (hdat : ∀ r ∈ l, r.dataset = d0)
    (hcons : ∀ r ∈ l, ∀ r2 ∈ l, r.ans = r2.ans → r.correct = r2.correct)
    (ha : a ∈ l.map (fun r => r.ans))
    (hmax : ∀ b ∈ l.map (fun r => r.ans), b ≠ a →
      ansCount l b < ansCount l a) :
    majorityVote l' = majorityVote l := by
  have hmapPerm : List.Perm (l'.map (fun r => r.ans)) (l.map (fun r => r.ans)) :=
    hperm.map _
  have ha' : a ∈ l'.map (fun r => r.ans) := hmapPerm.mem_iff.mpr ha
  have hmax' : ∀ b ∈ l'.map (fun r => r.ans), b ≠ a →
      ansCount l' b < ansCount l' a := by
    intro b hb hba
    rw [ansCount_perm hperm, ansCount_perm hperm]
    exact hmax b (hmapPerm.mem_iff.mp hb) hba
  have hm : modalAns l = some a := modalAns_eq_of_strict_max l a ha hmax
  have hm' : modalAns l' = some a := modalAns_eq_of_strict_max l' a ha' hmax'
  have hex : ∃ r, r ∈ l ∧ (fun r : EvalSample => decide (r.ans = a)) r = true := by
    obtain ⟨r, hr, hra⟩ := List.mem_map.mp ha
    exact ⟨r, hr, by simp [hra]⟩
  have hex' : ∃ r, r ∈ l' ∧ (fun r : EvalSample => decide (r.ans = a)) r = true := by
    obtain ⟨r, hr, hra⟩ := List.mem_map.mp ha'
    exact ⟨r, hr, by simp [hra]⟩
  obtain ⟨rep, hrep⟩ := Option.isSome_iff_exists.mp
    (List.find?_isSome.mpr (by exact hex))
  obtain ⟨rep', hrep'⟩ := Option.isSome_iff_exists.mp
    (List.find?_isSome.mpr (by exact hex'))
  have hrepmem : rep ∈ l := List.mem_of_find?_eq_some hrep
  have hrep'mem : rep' ∈ l := hperm.mem_iff.mp (List.mem_of_find?_eq_some hrep')
  have hrepans : rep.ans = a := by simpa using List.find?_some hrep
  have hrep'ans : rep'.ans = a := by simpa using List.find?_some hrep'
  have hcorr : rep'.correct = rep.correct :=
    hcons rep' hrep'mem rep hrepmem (by rw [hrepans, hrep'ans])
  have hne' : l' ≠ [] := by
    intro h
    rw [h] at hperm
    have hlen := hperm.length_eq
    exact hne (List.eq_nil_of_length_eq_zero hlen.symm)
  obtain ⟨r0, tl, rfl⟩ := List.exists_cons_of_ne_nil hne
  obtain ⟨r0', tl', rfl⟩ := List.exists_cons_of_ne_nil hne'
  rw [majorityVote_cons_eq r0' tl' a rep' hm' hrep',
    majorityVote_cons_eq r0 tl a rep hm hrep,
    hdat r0' (hperm.mem_iff.mp (List.mem_cons_self r0' tl')),
    hdat r0 (List.mem_cons_self r0 tl), hcorr]

theorem majority_vote_perm_invariant_witness :
    majorityVote
        [⟨"d", "B", none, false⟩, ⟨"d", "A", none, true⟩,
         ⟨"d", "A", none, true⟩] =
      majorityVote
        [⟨"d", "A", none, true⟩, ⟨"d", "B", none, false⟩,
         ⟨"d", "A", none, true⟩] :=
  majority_vote_perm_invariant_of_unique_mode _ _ "d" "A"
    (List.Perm.swap _ _ _) (by decide) (by decide) (by decide) (by decide)
    (by decide)
